import Mathlib

/-!
Verification of the file-organizer core: a shallow embedding of
`file_organizer/core/file_organizer.py` (rule matching, collision-safe moving,
dry-run/preview, run statistics) and `file_organizer/core/backup_manager.py`
(archive creation, metadata sidecar, retention cleanup).

Modelling conventions:
* Paths and filenames are `String`s; a directory is a list of direct file
  entries plus a list of named subfolders with their file-name contents.
* Filesystem faults that Python surfaces as exceptions are driven by an
  explicit per-file outcome oracle (`FileOutcome`) and explicit boolean
  failure flags, so both the normal path and every `except` branch of the
  source are represented.
* `datetime.now()` is passed in as an explicit `DateTime` value.
-/

namespace FileOrg

/-- Decimal rendering with structural fuel (any fuel at least the value
itself suffices, since dividing by ten strictly decreases). -/
def decRenderAux : Nat → Nat → List Char
  | 0, n => [Nat.digitChar (n % 10)]
  | fuel + 1, n =>
    if n < 10 then [Nat.digitChar n]
    else decRenderAux fuel (n / 10) ++ [Nat.digitChar (n % 10)]

/-- Decimal rendering of a natural number, most significant digit first.
This is the digit string Python's `str(int)` interpolates in
`f"{stem}_{counter}{suffix}"` (file_organizer.py line 159). -/
def decRender (n : Nat) : List Char := decRenderAux n n

/-- Numeric value of a decimal digit character (inverse of `Nat.digitChar`
on digits 0-9), used only to prove `decRender` injective. -/
def charVal (c : Char) : Nat := c.toNat - 48

/-- Parse a most-significant-first digit list back to a number. -/
def decVal (cs : List Char) : Nat := cs.foldl (fun a c => a * 10 + charVal c) 0

/-- The string Python renders for a natural number. -/
def natStr (n : Nat) : String := ⟨decRender n⟩

/-- Embedding of Python `str.lower()`: lower-case every character
(ASCII-faithful, which is all the source compares). -/
def strLower (s : String) : String := ⟨s.data.map Char.toLower⟩

/-- Index of the last `'.'` in a character list, if any (Python
`name.rfind('.')` as used by `pathlib`'s `suffix`/`stem`). -/
def rfindDot : List Char → Option Nat
  | [] => none
  | c :: cs =>
    match rfindDot cs with
    | some i => some (i + 1)
    | none => if c = '.' then some 0 else none

/-- Embedding of `pathlib.PurePath.suffix` on a file name: the substring from
the last dot on, provided that dot is neither the first nor the last
character; otherwise the empty string. -/
def pySuffix (name : String) : String :=
  match rfindDot name.data with
  | some i => if 0 < i ∧ i + 1 < name.data.length then ⟨name.data.drop i⟩ else ""
  | none => ""

/-- Embedding of `pathlib.PurePath.stem`: the file name with `pySuffix`
removed. -/
def pyStem (name : String) : String :=
  match rfindDot name.data with
  | some i => if 0 < i ∧ i + 1 < name.data.length then ⟨name.data.take i⟩ else name
  | none => name

/-- The `OrganizationRule` dataclass from `core/config.py` (lines 12-18). -/
structure OrganizationRule where
  name : String
  file_extensions : List String
  target_folder : String
  enabled : Bool := true
deriving Repr, DecidableEq

/-- The membership test on line 120 of `file_organizer.py`:
`file_extension in [ext.lower() for ext in rule.file_extensions]`.
`file_extension` is the already-lowered suffix of the file. -/
def extension_match (rule : OrganizationRule) (file_extension : String) : Bool :=
  (rule.file_extensions.map strLower).contains file_extension

/-- Embedding of `FileOrganizer._find_matching_rule` (lines 115-123): lower-case the file's
suffix and return the first rule in configured order whose lowered extension
list contains it. Note: the scan does NOT consult `rule.enabled`. -/
def find_matching_rule (rules : List OrganizationRule) (file_name : String) :
    Option OrganizationRule :=
  let file_extension := strLower (pySuffix file_name)
  rules.find? (fun rule => extension_match rule file_extension)

/-- The candidate name `f"{stem}_{counter}{suffix}"` built on line 159. -/
def candidate_name (stem suffix : String) (k : Nat) : String :=
  stem ++ "_" ++ natStr k ++ suffix

/-- The `while True` search of `_get_unique_filename` (lines 155-164), with
structural fuel. Called with fuel `existing.length + 1` the loop provably
reaches the first free candidate, which is exactly where the unbounded Python
loop stops. -/
def unique_name_loop (existing : List String) (stem suffix : String) :
    Nat → Nat → String
  | 0, k => candidate_name stem suffix k
  | fuel + 1, k =>
    if existing.contains (candidate_name stem suffix k) then
      unique_name_loop existing stem suffix fuel (k + 1)
    else candidate_name stem suffix k

/-- Embedding of `FileOrganizer._get_unique_filename` (lines 150-164): if the target name is
taken, append `_1`, `_2`, ... before the extension until a free name is found.
`existing` is the set of names present in the destination folder. -/
def get_unique_filename (existing : List String) (file_name : String) : String :=
  if existing.contains file_name then
    unique_name_loop existing (pyStem file_name) (pySuffix file_name)
      (existing.length + 1) 1
  else file_name

/-- The collision check of `_move_file` (lines 134-136): keep the file's own
name unless it already exists at the destination, else ask
`get_unique_filename`. -/
def resolve_target_name (existing : List String) (file_name : String) : String :=
  if existing.contains file_name then get_unique_filename existing file_name
  else file_name

/-- Iterated application of the `_move_file` collision resolution: each call
resolves a target name against the destination folder's current contents and
the moved file is then present under that name (as happens for successive
colliding moves into one folder). Returns the final folder contents and the
names assigned, in order. -/
def iterated_moves : List String → List String → List String × List String
  | existing, [] => (existing, [])
  | existing, n :: ns =>
    let t := resolve_target_name existing n
    let (final, ts) := iterated_moves (t :: existing) ns
    (final, t :: ts)

/-- A direct file child of the directory being organized. -/
structure FileEntry where
  name : String
  size : Nat
deriving Repr, DecidableEq

/-- State of the directory being organized: its direct file children in
enumeration order, and its subfolders with their file-name contents. -/
structure DirState where
  files : List FileEntry
  folders : List (String × List String)
deriving Repr, DecidableEq

/-- Look up a subfolder's contents. -/
def getFolder? (folders : List (String × List String)) (d : String) :
    Option (List String) :=
  (folders.find? (fun p => p.1 == d)).map (·.2)

/-- Replace (or append) a subfolder's contents. -/
def setFolder : List (String × List String) → String → List String →
    List (String × List String)
  | [], d, contents => [(d, contents)]
  | p :: ps, d, contents =>
    if p.1 == d then (d, contents) :: ps else p :: setFolder ps d contents

/-- Embedding of `target_dir.mkdir(exist_ok=True)` (line 131): create the target subfolder
if absent. -/
def mkdirEffect (st : DirState) (d : String) : DirState :=
  match getFolder? st.folders d with
  | some _ => st
  | none => { st with folders := setFolder st.folders d [] }

/-- The successful real-move path of `_move_file` (lines 127-144, dry_run
false, no exception): create the target folder, resolve the collision-free
target name, and relocate the file. -/
def doMove (st : DirState) (f : FileEntry) (d : String) : DirState :=
  let st1 := mkdirEffect st d
  let existing := (getFolder? st1.folders d).getD []
  let target := resolve_target_name existing f.name
  { files := st1.files.filter (fun g => g.name != f.name),
    folders := setFolder st1.folders d (target :: existing) }

/-- The `self.stats` counters (lines 26-33; timestamps are not modelled). -/
structure Stats where
  files_processed : Nat := 0
  files_moved : Nat := 0
  files_skipped : Nat := 0
  errors : Nat := 0
deriving Repr, DecidableEq

/-- Environment oracle for the per-file exception paths of
`_process_directory`/`_move_file`: `ok` = no exception; `moveFail` = the
`shutil.move` call raises, caught inside `_move_file` (lines 146-148);
`procFail` = an exception in the loop body before the move (e.g. the progress
callback), caught by lines 111-113. -/
inductive FileOutcome where
  | ok
  | moveFail
  | procFail
deriving Repr, DecidableEq

/-- One entry of the move log emitted on line 107 (`Moved X to Y`), together
with the applied rule's name. -/
structure MoveRecord where
  file_name : String
  rule_name : String
  target_folder : String
deriving Repr, DecidableEq

/-- One iteration of the `for` loop of `_process_directory` (lines 89-113):
count the file as processed, then either record an error (outer `except`),
skip it (no rule, disabled rule, or `_move_file` returned False), or move it
and log the move. In dry-run mode `_move_file` touches nothing and returns
True (lines 130, 139-142). -/
def process_one_file (rules : List OrganizationRule) (outcome : String → FileOutcome)
    (dry_run : Bool) (st : DirState) (stats : Stats) (trace : List MoveRecord)
    (f : FileEntry) : DirState × Stats × List MoveRecord :=
  let stats := { stats with files_processed := stats.files_processed + 1 }
  if outcome f.name == .procFail then
    (st, { stats with errors := stats.errors + 1 }, trace)
  else
    match find_matching_rule rules f.name with
    | none => (st, { stats with files_skipped := stats.files_skipped + 1 }, trace)
    | some rule =>
      if !rule.enabled then
        (st, { stats with files_skipped := stats.files_skipped + 1 }, trace)
      else if dry_run then
        (st, { stats with files_moved := stats.files_moved + 1 },
          trace ++ [⟨f.name, rule.name, rule.target_folder⟩])
      else if outcome f.name == .moveFail then
        (mkdirEffect st rule.target_folder,
          { stats with files_skipped := stats.files_skipped + 1 }, trace)
      else
        (doMove st f rule.target_folder,
          { stats with files_moved := stats.files_moved + 1 },
          trace ++ [⟨f.name, rule.name, rule.target_folder⟩])

/-- The loop of `_process_directory` over the up-front snapshot of direct
files (line 86), threading directory state, statistics and the move log. -/
def process_files (rules : List OrganizationRule) (outcome : String → FileOutcome)
    (dry_run : Bool) : List FileEntry → DirState → Stats → List MoveRecord →
    DirState × Stats × List MoveRecord
  | [], st, stats, trace => (st, stats, trace)
  | f :: fs, st, stats, trace =>
    let r := process_one_file rules outcome dry_run st stats trace f
    process_files rules outcome dry_run fs r.1 r.2.1 r.2.2

/-- Embedding of `FileOrganizer._process_directory` (lines 84-113). -/
def process_directory (rules : List OrganizationRule) (outcome : String → FileOutcome)
    (dry_run : Bool) (st : DirState) : DirState × Stats × List MoveRecord :=
  process_files rules outcome dry_run st.files st {} []

/-- The configuration the organizer reads (`config.organization_rules`,
`config.backup_before_organize`). -/
structure Config where
  organization_rules : List OrganizationRule
  backup_before_organize : Bool := true
deriving Repr

/-- The two fatal error exits of `organize_directory`: the `ValueError` of
line 57 and a backup exception re-raised by `_create_backup` (line 82). -/
inductive OrgError where
  | invalidDirectory
  | backupFailed
deriving Repr, DecidableEq

/-- Embedding of `FileOrganizer.organize_directory` (lines 35-72). `dirExists`/`isDir`
model the line 56 checks; `backupOk` models whether
`BackupManager.create_backup` succeeds. Returns the directory state after the
call alongside either the fatal error or the statistics and move log. -/
def organize_directory (config : Config) (dirExists isDir : Bool) (backupOk : Bool)
    (outcome : String → FileOutcome) (st : DirState) (dry_run : Bool) :
    DirState × Except OrgError (Stats × List MoveRecord) :=
  if !(dirExists && isDir) then (st, .error .invalidDirectory)
  else if config.backup_before_organize && !dry_run && !backupOk then
    (st, .error .backupFailed)
  else
    let r := process_directory config.organization_rules outcome dry_run st
    (r.1, .ok (r.2.1, r.2.2))

/-- One record of `preview_organization`'s result list (lines 209-215;
`current_path` is the directory path joined with `file_name` and is not
modelled separately). -/
structure PreviewRecord where
  file_name : String
  target_folder : String
  rule_name : String
  file_size : Nat
deriving Repr, DecidableEq

/-- Embedding of `FileOrganizer.preview_organization` (lines 198-217): every direct file
whose first matching rule is enabled, with its target folder and rule name. -/
def preview_organization (rules : List OrganizationRule) (st : DirState) :
    List PreviewRecord :=
  st.files.filterMap (fun f =>
    match find_matching_rule rules f.name with
    | some rule =>
      if rule.enabled then some ⟨f.name, rule.target_folder, rule.name, f.size⟩
      else none
    | none => none)

/-- A wall-clock instant, as consumed by `datetime.now().strftime` and
`datetime.now().isoformat()` in `backup_manager.py`. -/
structure DateTime where
  year : Nat
  month : Nat
  day : Nat
  hour : Nat
  minute : Nat
  second : Nat
deriving Repr, DecidableEq

/-- Zero-pad to two digits (strftime `%m`, `%d`, `%H`, `%M`, `%S`). -/
def pad2 (n : Nat) : String := if n < 10 then "0" ++ natStr n else natStr n

/-- Zero-pad to four digits (strftime `%Y`). -/
def pad4 (n : Nat) : String :=
  if n < 10 then "000" ++ natStr n
  else if n < 100 then "00" ++ natStr n
  else if n < 1000 then "0" ++ natStr n
  else natStr n

/-- Embedding of `datetime.now().strftime("%Y%m%d_%H%M%S")` (backup_manager.py line 39). -/
def strftime_compact (t : DateTime) : String :=
  pad4 t.year ++ pad2 t.month ++ pad2 t.day ++ "_" ++
    pad2 t.hour ++ pad2 t.minute ++ pad2 t.second

/-- The default backup name `f"backup_{timestamp}"` (line 40). -/
def default_backup_name (now : DateTime) : String :=
  "backup_" ++ strftime_compact now

/-- Embedding of `datetime.now().isoformat()` (line 59), the `created_at` metadata field. -/
def iso_timestamp (t : DateTime) : String :=
  pad4 t.year ++ "-" ++ pad2 t.month ++ "-" ++ pad2 t.day ++ "T" ++
    pad2 t.hour ++ ":" ++ pad2 t.minute ++ ":" ++ pad2 t.second

/-- State of the backup directory: which `<name>.zip` archives exist, and the
`<name>_metadata.json` sidecars with their stored `created_at` field. -/
structure BackupState where
  archives : List String
  metadata : List (String × String)
deriving Repr, DecidableEq

/-- The failure exits of `BackupManager.create_backup`: the
`FileNotFoundError` of line 36 and the re-raised construction failure of
line 75. -/
inductive BackupError where
  | sourceNotFound
  | backupFailed
deriving Repr, DecidableEq

/-- Embedding of `BackupManager.create_backup` (lines 32-75). `sourceExists` models the
line 35 check; `archiveWriteFails` models an exception while the archive is
being written. Opening the zip for writing creates/truncates the archive
file, so on failure the `backup_path.exists()` unlink of lines 73-74 removes
the archive name entirely; the metadata sidecar is written only on the
success path (lines 65-67), after the archive is complete. -/
def create_backup (st : BackupState) (sourceExists : Bool)
    (backup_name? : Option String) (now : DateTime) (archiveWriteFails : Bool) :
    BackupState × Except BackupError String :=
  if !sourceExists then (st, .error .sourceNotFound)
  else
    let backup_name := backup_name?.getD (default_backup_name now)
    if archiveWriteFails then
      ({ st with archives := st.archives.filter (fun a => a != backup_name) },
        .error .backupFailed)
    else
      ({ archives := backup_name :: st.archives.filter (fun a => a != backup_name),
         metadata := (backup_name, iso_timestamp now) ::
           st.metadata.filter (fun p => p.1 != backup_name) },
        .ok (backup_name ++ ".zip"))

/-- One entry of `list_backups`' result (lines 126-135; only the fields the
retention logic reads are modelled). -/
structure BackupInfo where
  backup_name : String
  created_at : String
deriving Repr, DecidableEq

/-- Embedding of `BackupManager.list_backups` (lines 109-140): pair every archive with its
metadata's `created_at` (falling back to "Unknown"), sorted by `created_at`
descending (`backups.sort(key=..., reverse=True)`). -/
def list_backups (st : BackupState) : List BackupInfo :=
  let backups := st.archives.map (fun a =>
    { backup_name := a,
      created_at := (((st.metadata.find? (fun p => p.1 == a)).map (·.2)).getD
        "Unknown") : BackupInfo })
  backups.mergeSort (fun x y => decide (y.created_at ≤ x.created_at))

/-- Embedding of `BackupManager.delete_backup` (lines 142-156): unlink the archive and its
metadata if present (idempotent) and report success. -/
def delete_backup (st : BackupState) (backup_name : String) : BackupState × Bool :=
  ({ archives := st.archives.filter (fun a => a != backup_name),
     metadata := st.metadata.filter (fun p => p.1 != backup_name) }, true)

/-- The deletion loop of `cleanup_old_backups` (lines 165-168), counting the
deletions that succeeded. -/
def delete_backups_loop (st : BackupState) : List String → BackupState × Nat
  | [] => (st, 0)
  | n :: ns =>
    let r := delete_backup st n
    let r2 := delete_backups_loop r.1 ns
    (r2.1, (if r.2 then 1 else 0) + r2.2)

/-- Embedding of `BackupManager.cleanup_old_backups` (lines 158-170): keep the `keep_count`
first entries of `list_backups` (most recent first), delete the rest via
`delete_backup`, return the number deleted; no-op when not more than
`keep_count` backups exist. -/
def cleanup_old_backups (st : BackupState) (keep_count : Nat) : BackupState × Nat :=
  let backups := list_backups st
  if backups.length ≤ keep_count then (st, 0)
  else delete_backups_loop st ((backups.drop keep_count).map (·.backup_name))

/-! Observers used to state theorems about a run. -/

/-- Whether a file's processing raises before the move (outer `except` path). -/
def procFailB (outcome : String → FileOutcome) (f : FileEntry) : Bool :=
  outcome f.name == .procFail

/-- Whether the file's first matching rule exists and is enabled (the line 99
condition for proceeding to the move). -/
def matchedEnabledB (rules : List OrganizationRule) (f : FileEntry) : Bool :=
  match find_matching_rule rules f.name with
  | some rule => rule.enabled
  | none => false

/-- Whether a file ends up counted in `files_moved`. -/
def movedB (rules : List OrganizationRule) (outcome : String → FileOutcome)
    (dry_run : Bool) (f : FileEntry) : Bool :=
  !procFailB outcome f && matchedEnabledB rules f &&
    (dry_run || !(outcome f.name == .moveFail))

/-- Whether a file ends up counted in `files_skipped`. -/
def skippedB (rules : List OrganizationRule) (outcome : String → FileOutcome)
    (dry_run : Bool) (f : FileEntry) : Bool :=
  !procFailB outcome f && !movedB rules outcome dry_run f

/-- The move-log entry a file contributes, if any. -/
def traceRec (rules : List OrganizationRule) (outcome : String → FileOutcome)
    (dry_run : Bool) (f : FileEntry) : Option MoveRecord :=
  if movedB rules outcome dry_run f then
    (find_matching_rule rules f.name).map
      (fun rule => ⟨f.name, rule.name, rule.target_folder⟩)
  else none

/-! ### Decimal rendering: round trip and injectivity -/

theorem charVal_digitChar (d : Nat) (h : d < 10) : charVal (Nat.digitChar d) = d := by
  interval_cases d <;> decide

theorem decVal_decRenderAux :
    ∀ (fuel n : Nat), n ≤ fuel → decVal (decRenderAux fuel n) = n := by
  intro fuel
  induction fuel with
  | zero =>
    intro n hn
    have : n = 0 := by omega
    subst this
    simp [decRenderAux, decVal, charVal_digitChar 0 (by omega)]
  | succ fuel ih =>
    intro n hn
    rw [decRenderAux]
    split
    · rename_i h
      simp [decVal, charVal_digitChar n h]
    · rename_i h
      have hlt : n / 10 < n := Nat.div_lt_self (by omega) (by omega)
      have ih1 : decVal (decRenderAux fuel (n / 10)) = n / 10 :=
        ih (n / 10) (by omega)
      simp only [decVal, List.foldl_append, List.foldl_cons, List.foldl_nil] at ih1 ⊢
      rw [ih1, charVal_digitChar _ (Nat.mod_lt _ (by omega))]
      omega

theorem decVal_decRender (n : Nat) : decVal (decRender n) = n :=
  decVal_decRenderAux n n (le_refl n)

theorem decRender_inj {m n : Nat} (h : decRender m = decRender n) : m = n := by
  have := congrArg decVal h
  rwa [decVal_decRender, decVal_decRender] at this

theorem candidate_name_inj (stem suffix : String) {j k : Nat}
    (h : candidate_name stem suffix j = candidate_name stem suffix k) : j = k := by
  have hd := congrArg String.data h
  simp only [candidate_name, natStr, String.data_append, List.append_assoc,
    List.singleton_append] at hd
  have h1 := List.append_cancel_left hd
  have h2 : decRender j ++ suffix.data = decRender k ++ suffix.data := by
    injection h1
  exact decRender_inj (List.append_cancel_right h2)

theorem contains_iff (l : List String) (a : String) : l.contains a = true ↔ a ∈ l := by
  simp

/-! ### The unique-filename search -/

theorem exists_free_candidate (existing : List String) (stem suffix : String)
    (k : Nat) :
    ∃ j, k ≤ j ∧ j < k + (existing.length + 1) ∧
      candidate_name stem suffix j ∉ existing := by
  by_contra hall
  push_neg at hall
  have hsub : (List.range' k (existing.length + 1)).map (candidate_name stem suffix)
      ⊆ existing := by
    intro x hx
    rcases List.mem_map.mp hx with ⟨j, hj, rfl⟩
    rcases List.mem_range'_1.mp hj with ⟨h1, h2⟩
    exact hall j h1 h2
  have hnd : ((List.range' k (existing.length + 1)).map
      (candidate_name stem suffix)).Nodup :=
    (List.nodup_range' _ _).map (fun _ _ h => candidate_name_inj stem suffix h)
  have := (hnd.subperm hsub).length_le
  simp [List.length_range'] at this

theorem unique_name_loop_spec (existing : List String) (stem suffix : String) :
    ∀ (fuel k : Nat),
      (∃ j, k ≤ j ∧ j < k + fuel ∧ candidate_name stem suffix j ∉ existing) →
      ∃ j, unique_name_loop existing stem suffix fuel k = candidate_name stem suffix j ∧
        k ≤ j ∧ candidate_name stem suffix j ∉ existing ∧
        ∀ i, k ≤ i → i < j → candidate_name stem suffix i ∈ existing := by
  intro fuel
  induction fuel with
  | zero =>
    intro k ⟨j, h1, h2, _⟩
    omega
  | succ fuel ih =>
    intro k hex
    rw [unique_name_loop]
    by_cases hc : existing.contains (candidate_name stem suffix k) = true
    · rw [if_pos hc]
      have hkmem : candidate_name stem suffix k ∈ existing :=
        (contains_iff _ _).mp hc
      rcases hex with ⟨j, h1, h2, h3⟩
      have hjk : j ≠ k := by
        rintro rfl
        exact h3 hkmem
      rcases ih (k + 1) ⟨j, by omega, by omega, h3⟩ with ⟨j2, e1, e2, e3, e4⟩
      refine ⟨j2, e1, by omega, e3, ?_⟩
      intro i hi1 hi2
      rcases Nat.eq_or_lt_of_le hi1 with rfl | hlt
      · exact hkmem
      · exact e4 i hlt hi2
    · rw [if_neg hc]
      refine ⟨k, rfl, le_refl k, fun hmem => hc ((contains_iff _ _).mpr hmem), ?_⟩
      intro i hi1 hi2
      omega

theorem get_unique_filename_spec (existing : List String) (file_name : String)
    (h : file_name ∈ existing) :
    ∃ k, 1 ≤ k ∧
      get_unique_filename existing file_name =
        candidate_name (pyStem file_name) (pySuffix file_name) k ∧
      candidate_name (pyStem file_name) (pySuffix file_name) k ∉ existing ∧
      ∀ j, 1 ≤ j → j < k →
        candidate_name (pyStem file_name) (pySuffix file_name) j ∈ existing := by
  rw [get_unique_filename, if_pos ((contains_iff _ _).mpr h)]
  rcases unique_name_loop_spec existing (pyStem file_name) (pySuffix file_name)
      (existing.length + 1) 1
      (exists_free_candidate existing (pyStem file_name) (pySuffix file_name) 1)
    with ⟨k, e1, e2, e3, e4⟩
  exact ⟨k, e2, e1, e3, e4⟩

theorem resolve_target_name_not_mem (existing : List String) (file_name : String) :
    resolve_target_name existing file_name ∉ existing := by
  rw [resolve_target_name]
  by_cases hc : existing.contains file_name = true
  · rw [if_pos hc]
    rcases get_unique_filename_spec existing file_name
        ((contains_iff _ _).mp hc) with ⟨k, _, he, hfree, _⟩
    rw [he]
    exact hfree
  · rw [if_neg hc]
    exact fun hmem => hc ((contains_iff _ _).mpr hmem)

/-! ### Iterated colliding moves -/

theorem iterated_moves_grows : ∀ (ns existing : List String) (s : String),
    s ∈ existing → s ∈ (iterated_moves existing ns).1 := by
  intro ns
  induction ns with
  | nil => intro existing s hs; simpa [iterated_moves] using hs
  | cons n ns ih =>
    intro existing s hs
    simp only [iterated_moves]
    exact ih _ s (List.mem_cons_of_mem _ hs)

theorem iterated_moves_fresh : ∀ (ns existing : List String) (t : String),
    t ∈ (iterated_moves existing ns).2 → t ∉ existing := by
  intro ns
  induction ns with
  | nil => intro existing t ht; simp [iterated_moves] at ht
  | cons n ns ih =>
    intro existing t ht
    simp only [iterated_moves, List.mem_cons] at ht
    rcases ht with rfl | ht
    · exact resolve_target_name_not_mem existing n
    · intro hmem
      exact ih _ t ht (List.mem_cons_of_mem _ hmem)

theorem iterated_moves_mem_final : ∀ (ns existing : List String) (t : String),
    t ∈ (iterated_moves existing ns).2 → t ∈ (iterated_moves existing ns).1 := by
  intro ns
  induction ns with
  | nil => intro existing t ht; simp [iterated_moves] at ht
  | cons n ns ih =>
    intro existing t ht
    simp only [iterated_moves, List.mem_cons] at ht ⊢
    rcases ht with rfl | ht
    · exact iterated_moves_grows ns _ _ (List.mem_cons_self _ _)
    · exact ih _ t ht

theorem iterated_moves_nodup : ∀ (ns existing : List String),
    (iterated_moves existing ns).2.Nodup := by
  intro ns
  induction ns with
  | nil => intro existing; simp [iterated_moves]
  | cons n ns ih =>
    intro existing
    simp only [iterated_moves, List.nodup_cons]
    refine ⟨fun hmem => ?_, ih _⟩
    exact iterated_moves_fresh ns _ _ hmem (List.mem_cons_self _ _)

theorem iterated_moves_length : ∀ (ns existing : List String),
    (iterated_moves existing ns).1.length = existing.length + ns.length := by
  intro ns
  induction ns with
  | nil => intro existing; simp [iterated_moves]
  | cons n ns ih =>
    intro existing
    simp only [iterated_moves, List.length_cons]
    rw [ih]
    simp
    omega

/-! ### Structure of `pySuffix` and case folding -/

theorem rfindDot_drop (cs : List Char) (i : Nat) (h : rfindDot cs = some i) :
    ∃ rest, cs.drop i = '.' :: rest := by
  induction cs generalizing i with
  | nil => simp [rfindDot] at h
  | cons c cs ih =>
    rw [rfindDot] at h
    rcases hr : rfindDot cs with _ | j
    · rw [hr] at h
      by_cases hdot : c = '.'
      · rw [if_pos hdot] at h
        cases h
        exact ⟨cs, by simp [hdot]⟩
      · rw [if_neg hdot] at h
        cases h
    · rw [hr] at h
      cases h
      rcases ih j hr with ⟨rest, hrest⟩
      exact ⟨rest, by simpa using hrest⟩

theorem pySuffix_empty_or_dot (name : String) :
    pySuffix name = "" ∨ ∃ rest, (pySuffix name).data = '.' :: rest := by
  rw [pySuffix]
  split
  · rename_i i hr
    split
    · rename_i hcond
      rcases rfindDot_drop name.data i hr with ⟨rest, hrest⟩
      exact Or.inr ⟨rest, by simp [hrest]⟩
    · exact Or.inl rfl
  · exact Or.inl rfl

theorem toLower_eq_dot {c : Char} (h : Char.toLower c = '.') : c = '.' := by
  unfold Char.toLower at h
  simp only [] at h
  by_cases hc : c.toNat ≥ 65 ∧ c.toNat ≤ 90
  · rw [if_pos hc] at h
    have hv : (c.toNat + 32).isValidChar := Or.inl (by omega)
    rw [Char.ofNat, dif_pos hv] at h
    have h2 := congrArg Char.toNat h
    rw [show (Char.ofNatAux (c.toNat + 32) hv).toNat = c.toNat + 32 by
      simp [Char.ofNatAux, Char.toNat, UInt32.toNat, BitVec.toNat_ofNatLt]] at h2
    rw [show ('.' : Char).toNat = 46 from rfl] at h2
    omega
  · rw [if_neg hc] at h
    exact h

/-- A nonempty extension string that does not begin with a dot can never equal
the lowered suffix of any file name: the suffix is empty or starts with `'.'`,
and lower-casing preserves both facts. -/
theorem dotless_extension_never_matches (e : String) (hne : e.data ≠ [])
    (hnd : e.data.head? ≠ some '.') (name : String) :
    strLower e ≠ strLower (pySuffix name) := by
  intro heq
  have hd := congrArg String.data heq
  simp only [strLower] at hd
  rcases pySuffix_empty_or_dot name with hcase | ⟨rest, hcase⟩
  · rw [hcase] at hd
    simp at hd
    exact hne hd
  · rw [hcase] at hd
    rcases he : e.data with _ | ⟨c, cs⟩
    · exact hne he
    · rw [he] at hd
      simp only [List.map_cons, List.cons.injEq] at hd
      have : c = '.' := toLower_eq_dot hd.1
      rw [he, this] at hnd
      simp at hnd

/-- Case-insensitivity of the extension test: any extension that lower-cases
to the file's lowered suffix makes the rule match. -/
theorem extension_match_of_mem (rule : OrganizationRule) (name e : String)
    (he : e ∈ rule.file_extensions)
    (hlow : strLower e = strLower (pySuffix name)) :
    extension_match rule (strLower (pySuffix name)) = true := by
  rw [extension_match, contains_iff]
  exact hlow ▸ List.mem_map_of_mem strLower he

/-- First-match characterization of `_find_matching_rule`: the scan returns
the first rule in list order passing the extension test, with the `enabled`
flag playing no role in the selection. -/
theorem find_matching_rule_first (pre post : List OrganizationRule)
    (r : OrganizationRule) (name : String)
    (hmatch : extension_match r (strLower (pySuffix name)) = true)
    (hpre : ∀ r2 ∈ pre, extension_match r2 (strLower (pySuffix name)) = false) :
    find_matching_rule (pre ++ r :: post) name = some r := by
  rw [find_matching_rule]
  induction pre with
  | nil => simp [List.find?_cons, hmatch]
  | cons p pre ih =>
    have hp := hpre p (List.mem_cons_self _ _)
    simp only [List.cons_append, List.find?_cons, hp]
    exact ih (fun r2 h2 => hpre r2 (List.mem_cons_of_mem _ h2))

theorem find_matching_rule_none (rules : List OrganizationRule) (name : String)
    (h : ∀ rule ∈ rules, ∀ e ∈ rule.file_extensions,
      e.data ≠ [] ∧ e.data.head? ≠ some '.') :
    find_matching_rule rules name = none := by
  rw [find_matching_rule]
  rw [List.find?_eq_none]
  intro rule hrule
  rw [extension_match]
  intro hcontains
  rcases List.mem_map.mp ((contains_iff _ _).mp hcontains) with ⟨e, he, hlow⟩
  exact dotless_extension_never_matches e (h rule hrule e he).1
    (h rule hrule e he).2 name hlow

/-! ### Characterization of the processing loop -/

theorem process_one_file_spec (rules : List OrganizationRule)
    (outcome : String → FileOutcome) (dry_run : Bool) (st : DirState)
    (stats : Stats) (trace : List MoveRecord) (f : FileEntry) :
    (process_one_file rules outcome dry_run st stats trace f).2.1.files_processed
        = stats.files_processed + 1 ∧
    (process_one_file rules outcome dry_run st stats trace f).2.1.errors
        = stats.errors + (if procFailB outcome f = true then 1 else 0) ∧
    (process_one_file rules outcome dry_run st stats trace f).2.1.files_moved
        = stats.files_moved + (if movedB rules outcome dry_run f = true then 1 else 0) ∧
    (process_one_file rules outcome dry_run st stats trace f).2.1.files_skipped
        = stats.files_skipped + (if skippedB rules outcome dry_run f = true then 1 else 0) ∧
    (process_one_file rules outcome dry_run st stats trace f).2.2
        = trace ++ (traceRec rules outcome dry_run f).toList := by
  unfold process_one_file
  rcases ho : outcome f.name with _ | _ | _ <;>
    rcases hf : find_matching_rule rules f.name with _ | rule <;>
    [skip; cases he : rule.enabled; skip; cases he : rule.enabled;
      skip; cases he : rule.enabled] <;>
    cases dry_run <;>
    simp_all [movedB, skippedB, procFailB, matchedEnabledB, traceRec]

theorem process_one_file_dry_state (rules : List OrganizationRule)
    (outcome : String → FileOutcome) (st : DirState) (stats : Stats)
    (trace : List MoveRecord) (f : FileEntry) :
    (process_one_file rules outcome true st stats trace f).1 = st := by
  unfold process_one_file
  rcases ho : outcome f.name with _ | _ | _ <;>
    rcases hf : find_matching_rule rules f.name with _ | rule <;>
    simp [ho, hf] <;> split <;> simp

theorem process_files_spec (rules : List OrganizationRule)
    (outcome : String → FileOutcome) (dry_run : Bool) :
    ∀ (fs : List FileEntry) (st : DirState) (stats : Stats) (trace : List MoveRecord),
      (process_files rules outcome dry_run fs st stats trace).2.1.files_processed
          = stats.files_processed + fs.length ∧
      (process_files rules outcome dry_run fs st stats trace).2.1.errors
          = stats.errors + fs.countP (procFailB outcome) ∧
      (process_files rules outcome dry_run fs st stats trace).2.1.files_moved
          = stats.files_moved + fs.countP (movedB rules outcome dry_run) ∧
      (process_files rules outcome dry_run fs st stats trace).2.1.files_skipped
          = stats.files_skipped + fs.countP (skippedB rules outcome dry_run) ∧
      (process_files rules outcome dry_run fs st stats trace).2.2
          = trace ++ fs.filterMap (traceRec rules outcome dry_run) := by
  intro fs
  induction fs with
  | nil => intro st stats trace; simp [process_files]
  | cons f fs ih =>
    intro st stats trace
    rcases process_one_file_spec rules outcome dry_run st stats trace f with
      ⟨e1, e2, e3, e4, e5⟩
    rcases ih (process_one_file rules outcome dry_run st stats trace f).1
        (process_one_file rules outcome dry_run st stats trace f).2.1
        (process_one_file rules outcome dry_run st stats trace f).2.2 with
      ⟨i1, i2, i3, i4, i5⟩
    simp only [process_files]
    refine ⟨?_, ?_, ?_, ?_, ?_⟩
    · rw [i1, e1, List.length_cons]; omega
    · rw [i2, e2, List.countP_cons]; omega
    · rw [i3, e3, List.countP_cons]; omega
    · rw [i4, e4, List.countP_cons]; omega
    · rw [i5, e5, List.filterMap_cons]
      cases traceRec rules outcome dry_run f <;> simp

theorem process_files_dry_state (rules : List OrganizationRule)
    (outcome : String → FileOutcome) :
    ∀ (fs : List FileEntry) (st : DirState) (stats : Stats) (trace : List MoveRecord),
      (process_files rules outcome true fs st stats trace).1 = st := by
  intro fs
  induction fs with
  | nil => intro st stats trace; simp [process_files]
  | cons f fs ih =>
    intro st stats trace
    simp only [process_files]
    rw [ih]
    exact process_one_file_dry_state rules outcome st stats trace f

/-- Every file falls in exactly one of the three outcome buckets, so the
bucket counts add up to the number of files. -/
theorem countP_outcome_partition (rules : List OrganizationRule)
    (outcome : String → FileOutcome) (dry_run : Bool) :
    ∀ fs : List FileEntry,
      fs.countP (procFailB outcome) + fs.countP (movedB rules outcome dry_run)
        + fs.countP (skippedB rules outcome dry_run) = fs.length := by
  intro fs
  induction fs with
  | nil => simp
  | cons f fs ih =>
    simp only [List.countP_cons, List.length_cons]
    rcases hp : procFailB outcome f
    · rcases hm : movedB rules outcome dry_run f
      · simp only [skippedB, hp, hm]
        simp
        omega
      · simp only [skippedB, hp, hm]
        simp
        omega
    · have hm : movedB rules outcome dry_run f = false := by simp [movedB, hp]
      simp only [skippedB, hp, hm]
      simp
      omega

/-! ### Backup-manager lemmas -/

theorem filter_bne_eq_self {l : List String} {name : String} (h : name ∉ l) :
    l.filter (fun a => a != name) = l := by
  rw [List.filter_eq_self]
  intro a ha
  simp only [bne_iff_ne, ne_eq]
  rintro rfl
  exact h ha

theorem not_mem_filter_bne (l : List String) (name : String) :
    name ∉ l.filter (fun a => a != name) := by
  intro hmem
  have := (List.mem_filter.mp hmem).2
  simp at this

theorem list_backups_names_perm (st : BackupState) :
    ((list_backups st).map (fun b => b.backup_name)).Perm st.archives := by
  unfold list_backups
  refine ((List.mergeSort_perm _ _).map _).trans ?_
  rw [List.map_map]
  have : ((fun b : BackupInfo => b.backup_name) ∘ (fun a =>
      ({ backup_name := a,
         created_at := (((st.metadata.find? (fun p => p.1 == a)).map (·.2)).getD
           "Unknown") } : BackupInfo))) = id := by
    funext a
    rfl
  rw [this, List.map_id]

theorem list_backups_sorted (st : BackupState) :
    (list_backups st).Pairwise (fun x y => y.created_at ≤ x.created_at) := by
  unfold list_backups
  have htrans : ∀ a b c : BackupInfo,
      (fun x y => decide (y.created_at ≤ x.created_at)) a b = true →
      (fun x y => decide (y.created_at ≤ x.created_at)) b c = true →
      (fun x y => decide (y.created_at ≤ x.created_at)) a c = true := by
    intro a b c hab hbc
    simp only [decide_eq_true_eq] at hab hbc ⊢
    exact le_trans hbc hab
  have htotal : ∀ a b : BackupInfo,
      ((fun x y => decide (y.created_at ≤ x.created_at)) a b ||
       (fun x y => decide (y.created_at ≤ x.created_at)) b a) = true := by
    intro a b
    simp only [Bool.or_eq_true, decide_eq_true_eq]
    exact le_total b.created_at a.created_at
  have := List.sorted_mergeSort htrans htotal
    (st.archives.map (fun a =>
      ({ backup_name := a,
         created_at := (((st.metadata.find? (fun p => p.1 == a)).map (·.2)).getD
           "Unknown") } : BackupInfo)))
  exact this.imp (fun h => by simpa using h)

theorem delete_backups_loop_spec : ∀ (ns : List String) (st : BackupState),
    (delete_backups_loop st ns).2 = ns.length ∧
    (delete_backups_loop st ns).1.archives
      = st.archives.filter (fun a => !ns.contains a) := by
  intro ns
  induction ns with
  | nil => intro st; simp [delete_backups_loop]
  | cons n ns ih =>
    intro st
    simp only [delete_backups_loop, delete_backup]
    constructor
    · rw [(ih _).1]
      simp only [if_true, List.length_cons]
      omega
    · rw [(ih _).2]
      simp only [List.filter_filter]
      congr 1
      funext a
      simp only [List.contains_cons, Bool.not_or, bne]
      rw [Bool.and_comm]

/-- Under a fault-free environment the moved test reduces to "the first
matching rule exists and is enabled", independently of dry-run mode. -/
theorem movedB_of_ok (rules : List OrganizationRule)
    (outcome : String → FileOutcome) (dry_run : Bool) (f : FileEntry)
    (hok : outcome f.name = .ok) :
    movedB rules outcome dry_run f = matchedEnabledB rules f := by
  have h1 : (FileOutcome.ok == FileOutcome.procFail) = false := rfl
  have h2 : (FileOutcome.ok == FileOutcome.moveFail) = false := rfl
  simp [movedB, procFailB, hok, h1, h2]

theorem movedB_find_some (rules : List OrganizationRule)
    (outcome : String → FileOutcome) (dry_run : Bool) (f : FileEntry)
    (h : movedB rules outcome dry_run f = true) :
    ∃ r, find_matching_rule rules f.name = some r ∧ r.enabled = true := by
  have hme : matchedEnabledB rules f = true := by
    unfold movedB at h
    simp only [Bool.and_eq_true] at h
    exact h.1.2
  unfold matchedEnabledB at hme
  rcases hf : find_matching_rule rules f.name with _ | r
  · rw [hf] at hme
    cases hme
  · rw [hf] at hme
    exact ⟨r, rfl, hme⟩

theorem length_filterMap_traceRec (rules : List OrganizationRule)
    (outcome : String → FileOutcome) (dry_run : Bool) :
    ∀ fs : List FileEntry,
      (fs.filterMap (traceRec rules outcome dry_run)).length
        = fs.countP (movedB rules outcome dry_run) := by
  intro fs
  induction fs with
  | nil => simp
  | cons f fs ih =>
    rw [List.filterMap_cons, List.countP_cons]
    rcases hm : movedB rules outcome dry_run f
    · have ht : traceRec rules outcome dry_run f = none := by
        simp [traceRec, hm]
      rw [ht]
      simp [ih]
    · rcases movedB_find_some rules outcome dry_run f hm with ⟨r, hf, -⟩
      have ht : traceRec rules outcome dry_run f
          = some ⟨f.name, r.name, r.target_folder⟩ := by
        simp [traceRec, hm, hf]
      rw [ht]
      simp [ih]

/-! ### Claim theorems -/

/-- C1 (counterexample): with a disabled rule claiming `.png` listed before an
enabled rule also claiming `.png`, `_find_matching_rule` selects the earlier
DISABLED rule, and the run skips the file instead of moving it per the later
enabled rule (`files_moved = 0`, empty move log) — refuting the claim that
the scan considers only enabled rules. -/
theorem C1_counterexample :
    find_matching_rule
        [⟨"A", [".png"], "FolderA", false⟩, ⟨"B", [".png"], "FolderB", true⟩]
        "x.png"
      = some ⟨"A", [".png"], "FolderA", false⟩ ∧
    (organize_directory
        ⟨[⟨"A", [".png"], "FolderA", false⟩, ⟨"B", [".png"], "FolderB", true⟩],
          false⟩
        true true true (fun _ => .ok) ⟨[⟨"x.png", 1⟩], []⟩ false).2
      = .ok (⟨1, 0, 1, 0⟩, []) := by
  constructor <;> rfl

/-- C1 (amended): `_find_matching_rule` scans ALL rules in configured order,
ignoring the `enabled` flag, and returns the first rule whose extension set
contains the file's extension; when that first match is disabled the
processing loop counts the file as skipped and does not move it (so an
earlier disabled rule shadows a later enabled rule instead of yielding to
it). -/
theorem C1_amended :
    (∀ (pre post : List OrganizationRule) (r : OrganizationRule) (name : String),
      extension_match r (strLower (pySuffix name)) = true →
      (∀ r2 ∈ pre, extension_match r2 (strLower (pySuffix name)) = false) →
      find_matching_rule (pre ++ r :: post) name = some r) ∧
    (∀ (rules : List OrganizationRule) (outcome : String → FileOutcome)
      (dry_run : Bool) (st : DirState) (stats : Stats) (trace : List MoveRecord)
      (f : FileEntry) (r : OrganizationRule),
      find_matching_rule rules f.name = some r → r.enabled = false →
      outcome f.name ≠ .procFail →
      process_one_file rules outcome dry_run st stats trace f =
        (st, { stats with files_processed := stats.files_processed + 1,
                          files_skipped := stats.files_skipped + 1 }, trace)) := by
  constructor
  · intro pre post r name hmatch hpre
    exact find_matching_rule_first pre post r name hmatch hpre
  · intro rules outcome dry_run st stats trace f r hf he hp
    unfold process_one_file
    have hpb : (outcome f.name == FileOutcome.procFail) = false := by
      simpa using hp
    rw [hf, hpb]
    simp [he]

/-- C1 (amended, witness): the first-match characterization and the
disabled-skip behaviour at the concrete counterexample rule set. -/
theorem C1_amended_witness :
    find_matching_rule
        ([] ++ (⟨"A", [".png"], "FolderA", false⟩ : OrganizationRule) ::
          [⟨"B", [".png"], "FolderB", true⟩]) "x.png"
      = some ⟨"A", [".png"], "FolderA", false⟩ ∧
    process_one_file
        [⟨"A", [".png"], "FolderA", false⟩, ⟨"B", [".png"], "FolderB", true⟩]
        (fun _ => .ok) false ⟨[], []⟩ {} [] ⟨"x.png", 1⟩ =
      (⟨[], []⟩, { files_processed := 1, files_skipped := 1 }, []) :=
  ⟨C1_amended.1 [] [⟨"B", [".png"], "FolderB", true⟩]
      ⟨"A", [".png"], "FolderA", false⟩ "x.png" (by decide)
      (fun r2 h2 => absurd h2 (by simp)),
   C1_amended.2
      [⟨"A", [".png"], "FolderA", false⟩, ⟨"B", [".png"], "FolderB", true⟩]
      (fun _ => .ok) false ⟨[], []⟩ {} [] ⟨"x.png", 1⟩
      ⟨"A", [".png"], "FolderA", false⟩ (by decide) rfl (by decide)⟩

/-- C2 (counterexample): a file whose `shutil.move` fails is counted in
`files_skipped`, not `errors` (stats `⟨1, 0, 1, 0⟩`), because `_move_file`
catches the exception itself and returns False — refuting the claim that a
failure inside the move step increments `errors`. -/
theorem C2_counterexample :
    (organize_directory ⟨[⟨"Images", [".png"], "Images", true⟩], false⟩
        true true true (fun _ => .moveFail) ⟨[⟨"x.png", 1⟩], []⟩ false).2
      = .ok (⟨1, 0, 1, 0⟩, []) := by
  rfl

/-- C2 (amended): every per-file exception raised in the processing loop
outside `_move_file` increments `errors`; a failure inside the move step is
caught by `_move_file` (which returns False) and is counted in
`files_skipped`, not `errors`; and no failing file aborts the run —
`files_processed` always equals the number of files. -/
theorem C2_amended :
    ∀ (rules : List OrganizationRule) (outcome : String → FileOutcome)
      (dry_run : Bool) (st : DirState),
      (process_directory rules outcome dry_run st).2.1.files_processed
          = st.files.length ∧
      (process_directory rules outcome dry_run st).2.1.errors
          = st.files.countP (procFailB outcome) ∧
      (process_directory rules outcome dry_run st).2.1.files_skipped
          = st.files.countP (skippedB rules outcome dry_run) ∧
      (process_directory rules outcome dry_run st).2.1.files_moved
          = st.files.countP (movedB rules outcome dry_run) ∧
      (∀ f ∈ st.files, outcome f.name = .moveFail → dry_run = false →
        procFailB outcome f = false ∧
        movedB rules outcome dry_run f = false ∧
        skippedB rules outcome dry_run f = true) := by
  intro rules outcome dry_run st
  rcases process_files_spec rules outcome dry_run st.files st {} [] with
    ⟨e1, e2, e3, e4, _⟩
  refine ⟨?_, ?_, ?_, ?_, ?_⟩
  · rw [process_directory, e1]; simp
  · rw [process_directory, e2]; simp
  · rw [process_directory, e4]; simp
  · rw [process_directory, e3]; simp
  · intro f _ hmv hdry
    subst hdry
    have hpf : procFailB outcome f = false := by simp [procFailB, hmv]
    have hmvB : movedB rules outcome false f = false := by
      simp [movedB, hmv]
    exact ⟨hpf, hmvB, by simp [skippedB, hpf, hmvB]⟩

/-- C2 (amended, witness): the counting identities and the move-failure
classification at a concrete one-file directory whose move fails. -/
theorem C2_amended_witness :
    (process_directory [⟨"Images", [".png"], "Images", true⟩]
        (fun _ => .moveFail) false ⟨[⟨"x.png", 1⟩], []⟩).2.1.files_processed = 1 ∧
    procFailB (fun _ => .moveFail) (⟨"x.png", 1⟩ : FileEntry) = false ∧
    movedB [⟨"Images", [".png"], "Images", true⟩] (fun _ => .moveFail) false
      ⟨"x.png", 1⟩ = false ∧
    skippedB [⟨"Images", [".png"], "Images", true⟩] (fun _ => .moveFail) false
      ⟨"x.png", 1⟩ = true := by
  have h := C2_amended [⟨"Images", [".png"], "Images", true⟩]
    (fun _ => .moveFail) false ⟨[⟨"x.png", 1⟩], []⟩
  have h5 := h.2.2.2.2 ⟨"x.png", 1⟩ (by simp) rfl rfl
  exact ⟨by rw [h.1]; rfl, h5.1, h5.2.1, h5.2.2⟩

/-- C3 (counterexample): a rule listing the dotless extension string `"png"`
does NOT match `x.png` (whose `pathlib` suffix is `".png"`): no leading-dot
normalization happens in `_find_matching_rule` — refuting the claim. -/
theorem C3_counterexample :
    find_matching_rule [⟨"Images", ["png"], "Images", true⟩] "x.png" = none ∧
    pySuffix "x.png" = ".png" := by
  constructor <;> rfl

/-- C3 (amended): rule extensions are compared case-insensitively (any stored
extension whose lower-casing equals the file's lowered suffix matches), but
extension strings are NOT normalized to begin with a dot: a nonempty
extension that does not start with `'.'` can never equal any file's lowered
suffix, so a rule whose extensions all lack the leading dot matches no file
at all. -/
theorem C3_amended :
    (∀ (rule : OrganizationRule) (name e : String),
      e ∈ rule.file_extensions → strLower e = strLower (pySuffix name) →
      extension_match rule (strLower (pySuffix name)) = true) ∧
    (∀ e : String, e.data ≠ [] → e.data.head? ≠ some '.' →
      ∀ name, strLower e ≠ strLower (pySuffix name)) ∧
    (∀ (rules : List OrganizationRule) (name : String),
      (∀ rule ∈ rules, ∀ e ∈ rule.file_extensions,
        e.data ≠ [] ∧ e.data.head? ≠ some '.') →
      find_matching_rule rules name = none) :=
  ⟨extension_match_of_mem, dotless_extension_never_matches,
    find_matching_rule_none⟩

/-- C3 (amended, witness): case-insensitive match of `".PNG"` against
`x.png`, non-match of dotless `"png"`, and the resulting `none` for a rule
list with only dotless extensions. -/
theorem C3_amended_witness :
    extension_match ⟨"Images", [".PNG"], "Images", true⟩
      (strLower (pySuffix "x.png")) = true ∧
    strLower "png" ≠ strLower (pySuffix "x.png") ∧
    find_matching_rule [⟨"Images", ["png"], "Images", true⟩] "x.png" = none :=
  ⟨C3_amended.1 ⟨"Images", [".PNG"], "Images", true⟩ "x.png" ".PNG"
      (by simp) (by decide),
   C3_amended.2.1 "png" (by decide) (by decide) "x.png",
   C3_amended.2.2 [⟨"Images", ["png"], "Images", true⟩] "x.png" (by decide)⟩

/-- C6: `organize_directory` fails fast with the directory untouched in
exactly two cases — an invalid directory yields the validation error, and
(when a backup is requested on a non-dry run) a backup failure propagates
before any file is processed; in every other situation the run proceeds and
returns statistics. -/
theorem C6_fail_fast :
    ∀ (config : Config) (de isd bOk : Bool) (outcome : String → FileOutcome)
      (st : DirState) (dry_run : Bool),
      ((de && isd) = false →
        organize_directory config de isd bOk outcome st dry_run
          = (st, .error .invalidDirectory)) ∧
      ((de && isd) = true →
        (config.backup_before_organize && !dry_run && !bOk) = true →
        organize_directory config de isd bOk outcome st dry_run
          = (st, .error .backupFailed)) ∧
      ((de && isd) = true →
        (config.backup_before_organize && !dry_run && !bOk) = false →
        ∃ out, (organize_directory config de isd bOk outcome st dry_run).2
          = .ok out) := by
  intro config de isd bOk outcome st dry_run
  refine ⟨?_, ?_, ?_⟩
  · intro hv
    unfold organize_directory
    rw [hv]
    rfl
  · intro hv hb
    unfold organize_directory
    rw [hv, hb]
    rfl
  · intro hv hb
    unfold organize_directory
    rw [hv, hb]
    exact ⟨_, rfl⟩

/-- C6 (witness): the three branches at concrete inputs — missing directory,
failing backup, and a successful run. -/
theorem C6_fail_fast_witness :
    organize_directory ⟨[], true⟩ false true true (fun _ => .ok) ⟨[], []⟩ false
      = (⟨[], []⟩, .error .invalidDirectory) ∧
    organize_directory ⟨[], true⟩ true true false (fun _ => .ok) ⟨[], []⟩ false
      = (⟨[], []⟩, .error .backupFailed) ∧
    ∃ out, (organize_directory ⟨[], true⟩ true true true (fun _ => .ok)
      ⟨[], []⟩ false).2 = .ok out :=
  ⟨(C6_fail_fast ⟨[], true⟩ false true true (fun _ => .ok) ⟨[], []⟩ false).1 rfl,
   (C6_fail_fast ⟨[], true⟩ true true false (fun _ => .ok) ⟨[], []⟩ false).2.1
      rfl rfl,
   (C6_fail_fast ⟨[], true⟩ true true true (fun _ => .ok) ⟨[], []⟩ false).2.2
      rfl rfl⟩

/-- C10: whenever `organize_directory` returns statistics, the four counters
are non-negative and satisfy
`files_processed = files_moved + files_skipped + errors`: each loop
iteration increments `files_processed` and exactly one of the other three. -/
theorem C10_stats_partition :
    ∀ (config : Config) (de isd bOk : Bool) (outcome : String → FileOutcome)
      (st : DirState) (dry_run : Bool) (stats : Stats) (trace : List MoveRecord),
      (organize_directory config de isd bOk outcome st dry_run).2
          = .ok (stats, trace) →
      stats.files_processed = stats.files_moved + stats.files_skipped + stats.errors ∧
      0 ≤ stats.files_processed ∧ 0 ≤ stats.files_moved ∧
      0 ≤ stats.files_skipped ∧ 0 ≤ stats.errors := by
  intro config de isd bOk outcome st dry_run stats trace h
  unfold organize_directory at h
  split at h
  · cases h
  · split at h
    · cases h
    · simp only [Except.ok.injEq, Prod.mk.injEq] at h
      obtain ⟨hs, -⟩ := h
      rcases process_files_spec config.organization_rules outcome dry_run
          st.files st {} [] with ⟨e1, e2, e3, e4, -⟩
      have hp := countP_outcome_partition config.organization_rules outcome
        dry_run st.files
      refine ⟨?_, Nat.zero_le _, Nat.zero_le _, Nat.zero_le _, Nat.zero_le _⟩
      rw [← hs]
      unfold process_directory
      rw [e1, e2, e3, e4]
      simp only [Stats.files_processed, Stats.files_moved, Stats.files_skipped,
        Stats.errors]
      omega

/-- C10 (witness): the partition identity at a concrete mixed run (one moved
file, one skipped file, one erroring file). -/
theorem C10_stats_partition_witness :
    ∃ stats trace,
      (organize_directory ⟨[⟨"Images", [".png"], "Images", true⟩], false⟩
          true true true
          (fun n => if n == "c.png" then .procFail else .ok)
          ⟨[⟨"x.png", 1⟩, ⟨"y.txt", 2⟩, ⟨"c.png", 3⟩], []⟩ false).2
        = .ok (stats, trace) ∧
      stats.files_processed
        = stats.files_moved + stats.files_skipped + stats.errors := by
  refine ⟨_, _, rfl, ?_⟩
  exact (C10_stats_partition ⟨[⟨"Images", [".png"], "Images", true⟩], false⟩
    true true true (fun n => if n == "c.png" then .procFail else .ok)
    ⟨[⟨"x.png", 1⟩, ⟨"y.txt", 2⟩, ⟨"c.png", 3⟩], []⟩ false _ _ rfl).1

/-- C4: a dry run leaves the directory state exactly as it was (no file set
change, and the backup step is never invoked — the result does not depend on
the backup flag), and in a fault-free environment it reports the same
`files_moved` count as a real run on the same state. -/
theorem C4_dry_run_purity :
    ∀ (config : Config) (bOk : Bool) (outcome : String → FileOutcome)
      (st : DirState),
      (organize_directory config true true bOk outcome st true).1 = st ∧
      ((∀ n, outcome n = .ok) →
        ∃ statsD traceD statsR traceR,
          (organize_directory config true true bOk outcome st true).2
            = .ok (statsD, traceD) ∧
          (organize_directory config true true true outcome st false).2
            = .ok (statsR, traceR) ∧
          statsD.files_moved = statsR.files_moved) := by
  intro config bOk outcome st
  constructor
  · have h1 := process_files_dry_state config.organization_rules outcome
      st.files st {} []
    simp [organize_directory, process_directory, h1]
  · intro hok
    have hd : (organize_directory config true true bOk outcome st true).2
        = .ok ((process_directory config.organization_rules outcome true st).2.1,
               (process_directory config.organization_rules outcome true st).2.2) := by
      simp [organize_directory]
    have hr : (organize_directory config true true true outcome st false).2
        = .ok ((process_directory config.organization_rules outcome false st).2.1,
               (process_directory config.organization_rules outcome false st).2.2) := by
      simp [organize_directory]
    refine ⟨_, _, _, _, hd, hr, ?_⟩
    rcases process_files_spec config.organization_rules outcome true
        st.files st {} [] with ⟨-, -, e3, -, -⟩
    rcases process_files_spec config.organization_rules outcome false
        st.files st {} [] with ⟨-, -, e3r, -, -⟩
    unfold process_directory
    rw [e3, e3r]
    have heq : st.files.countP (movedB config.organization_rules outcome true)
        = st.files.countP (movedB config.organization_rules outcome false) := by
      apply List.countP_congr
      intro f _
      rw [movedB_of_ok _ _ _ _ (hok f.name), movedB_of_ok _ _ _ _ (hok f.name)]
    rw [heq]

/-- C4 (witness): dry-run purity and count agreement at a concrete two-file
directory, with the backup flag set and the backup unavailable. -/
theorem C4_dry_run_purity_witness :
    (organize_directory ⟨[⟨"Images", [".png"], "Images", true⟩], true⟩ true true
        false (fun _ => .ok) ⟨[⟨"x.png", 1⟩, ⟨"y.txt", 2⟩], []⟩ true).1
      = ⟨[⟨"x.png", 1⟩, ⟨"y.txt", 2⟩], []⟩ ∧
    ∃ statsD traceD statsR traceR,
      (organize_directory ⟨[⟨"Images", [".png"], "Images", true⟩], true⟩ true true
          false (fun _ => .ok) ⟨[⟨"x.png", 1⟩, ⟨"y.txt", 2⟩], []⟩ true).2
        = .ok (statsD, traceD) ∧
      (organize_directory ⟨[⟨"Images", [".png"], "Images", true⟩], true⟩ true true
          true (fun _ => .ok) ⟨[⟨"x.png", 1⟩, ⟨"y.txt", 2⟩], []⟩ false).2
        = .ok (statsR, traceR) ∧
      statsD.files_moved = statsR.files_moved := by
  have h := C4_dry_run_purity ⟨[⟨"Images", [".png"], "Images", true⟩], true⟩
    false (fun _ => .ok) ⟨[⟨"x.png", 1⟩, ⟨"y.txt", 2⟩], []⟩
  exact ⟨h.1, h.2 (fun _ => rfl)⟩

/-- C9: in a fault-free environment the real run's move log is exactly
`preview_organization`'s list (same files in the same order, with the same
rule name and target folder), and `files_moved` equals the preview's length —
both paths select files through `_find_matching_rule` plus the same
enabled-rule condition. -/
theorem C9_preview_matches_run :
    ∀ (rules : List OrganizationRule) (outcome : String → FileOutcome)
      (st : DirState),
      (∀ n, outcome n = .ok) →
      ∀ (stats : Stats) (trace : List MoveRecord),
      (organize_directory ⟨rules, false⟩ true true true outcome st false).2
          = .ok (stats, trace) →
      trace = (preview_organization rules st).map
        (fun p => ⟨p.file_name, p.rule_name, p.target_folder⟩) ∧
      stats.files_moved = (preview_organization rules st).length := by
  intro rules outcome st hok stats trace h
  have hok2 : (organize_directory ⟨rules, false⟩ true true true outcome st false).2
      = .ok ((process_directory rules outcome false st).2.1,
             (process_directory rules outcome false st).2.2) := by
    simp [organize_directory]
  rw [hok2] at h
  simp only [Except.ok.injEq, Prod.mk.injEq] at h
  obtain ⟨hs, ht⟩ := h
  replace hs := hs.symm
  replace ht := ht.symm
  rcases process_files_spec rules outcome false st.files st {} [] with
    ⟨-, -, e3, -, e5⟩
  have htrace : trace = st.files.filterMap (traceRec rules outcome false) := by
    rw [ht]
    show (process_files rules outcome false st.files st {} []).2.2 = _
    rw [e5]
    rfl
  have hpoint : ∀ f ∈ st.files,
      traceRec rules outcome false f
        = Option.map (fun p : PreviewRecord =>
            (⟨p.file_name, p.rule_name, p.target_folder⟩ : MoveRecord))
          (match find_matching_rule rules f.name with
            | some rule =>
              if rule.enabled then
                some ⟨f.name, rule.target_folder, rule.name, f.size⟩
              else none
            | none => none) := by
    intro f _
    have hmv := movedB_of_ok rules outcome false f (hok f.name)
    rcases hf : find_matching_rule rules f.name with _ | rule
    · have : movedB rules outcome false f = false := by
        rw [hmv]; simp [matchedEnabledB, hf]
      simp [traceRec, this, hf]
    · rcases he : rule.enabled
      · have : movedB rules outcome false f = false := by
          rw [hmv]; simp [matchedEnabledB, hf, he]
        simp [traceRec, this, hf, he]
      · have : movedB rules outcome false f = true := by
          rw [hmv]; simp [matchedEnabledB, hf, he]
        simp [traceRec, this, hf, he]
  have hmap : trace = (preview_organization rules st).map
      (fun p => ⟨p.file_name, p.rule_name, p.target_folder⟩) := by
    rw [htrace, preview_organization, List.map_filterMap]
    exact List.filterMap_congr hpoint
  refine ⟨hmap, ?_⟩
  have hlen : trace.length = st.files.countP (movedB rules outcome false) := by
    rw [htrace]
    exact length_filterMap_traceRec rules outcome false st.files
  have hmoved : stats.files_moved
      = st.files.countP (movedB rules outcome false) := by
    rw [hs]
    show (process_files rules outcome false st.files st {} []).2.1.files_moved = _
    rw [e3]
    simp
  have hplen : (preview_organization rules st).length = trace.length := by
    rw [hmap, List.length_map]
  rw [hmoved, ← hlen, hplen]

/-- C9 (witness): preview/run agreement at a concrete directory with a
matched file, an unmatched file, and a disabled-rule file. -/
theorem C9_preview_matches_run_witness :
    ∃ stats trace,
      (organize_directory
          ⟨[⟨"Docs", [".txt"], "Docs", false⟩, ⟨"Images", [".png"], "Images", true⟩],
            false⟩
          true true true (fun _ => .ok)
          ⟨[⟨"x.png", 1⟩, ⟨"y.md", 2⟩, ⟨"z.txt", 3⟩], []⟩ false).2
        = .ok (stats, trace) ∧
      trace = (preview_organization
          [⟨"Docs", [".txt"], "Docs", false⟩, ⟨"Images", [".png"], "Images", true⟩]
          ⟨[⟨"x.png", 1⟩, ⟨"y.md", 2⟩, ⟨"z.txt", 3⟩], []⟩).map
        (fun p => ⟨p.file_name, p.rule_name, p.target_folder⟩) ∧
      stats.files_moved = (preview_organization
          [⟨"Docs", [".txt"], "Docs", false⟩, ⟨"Images", [".png"], "Images", true⟩]
          ⟨[⟨"x.png", 1⟩, ⟨"y.md", 2⟩, ⟨"z.txt", 3⟩], []⟩).length := by
  refine ⟨_, _, rfl, ?_⟩
  exact C9_preview_matches_run
    [⟨"Docs", [".txt"], "Docs", false⟩, ⟨"Images", [".png"], "Images", true⟩]
    (fun _ => .ok) ⟨[⟨"x.png", 1⟩, ⟨"y.md", 2⟩, ⟨"z.txt", 3⟩], []⟩
    (fun _ => rfl) _ _ rfl

/-- C5: on a collision, `_get_unique_filename` returns `stem_k` + extension
for the SMALLEST positive counter `k` whose name is free (every smaller
positive counter is taken); and iterating the `_move_file` collision
resolution for N ≥ 2 files aimed at the same target name leaves all N files
present under pairwise-distinct names, with nothing overwritten (the folder
grows by exactly N entries). -/
theorem C5_collision_resolution :
    (∀ (existing : List String) (file_name : String), file_name ∈ existing →
      ∃ k, 1 ≤ k ∧
        get_unique_filename existing file_name
          = candidate_name (pyStem file_name) (pySuffix file_name) k ∧
        candidate_name (pyStem file_name) (pySuffix file_name) k ∉ existing ∧
        ∀ j, 1 ≤ j → j < k →
          candidate_name (pyStem file_name) (pySuffix file_name) j ∈ existing) ∧
    (∀ (existing : List String) (base : String) (N : Nat), 2 ≤ N →
      (iterated_moves existing (List.replicate N base)).2.Nodup ∧
      (∀ t ∈ (iterated_moves existing (List.replicate N base)).2,
        t ∈ (iterated_moves existing (List.replicate N base)).1) ∧
      (iterated_moves existing (List.replicate N base)).1.length
        = existing.length + N) :=
  ⟨get_unique_filename_spec, fun existing base N _ =>
    ⟨iterated_moves_nodup _ _,
     fun t ht => iterated_moves_mem_final _ _ t ht,
     by rw [iterated_moves_length]; simp⟩⟩

/-- C5 (witness): the minimal-counter property at `foo.txt` colliding with
`foo.txt` and `foo_1.txt`, and the no-data-loss property for two moves of
`foo.txt` onto a folder already holding one. -/
theorem C5_collision_resolution_witness :
    (∃ k, 1 ≤ k ∧
      get_unique_filename ["foo.txt", "foo_1.txt"] "foo.txt"
        = candidate_name (pyStem "foo.txt") (pySuffix "foo.txt") k ∧
      candidate_name (pyStem "foo.txt") (pySuffix "foo.txt") k
        ∉ ["foo.txt", "foo_1.txt"] ∧
      ∀ j, 1 ≤ j → j < k →
        candidate_name (pyStem "foo.txt") (pySuffix "foo.txt") j
          ∈ ["foo.txt", "foo_1.txt"]) ∧
    (iterated_moves ["foo.txt"] (List.replicate 2 "foo.txt")).2.Nodup ∧
    (∀ t ∈ (iterated_moves ["foo.txt"] (List.replicate 2 "foo.txt")).2,
      t ∈ (iterated_moves ["foo.txt"] (List.replicate 2 "foo.txt")).1) ∧
    (iterated_moves ["foo.txt"] (List.replicate 2 "foo.txt")).1.length
      = 1 + 2 :=
  ⟨C5_collision_resolution.1 ["foo.txt", "foo_1.txt"] "foo.txt" (by decide),
   (C5_collision_resolution.2 ["foo.txt"] "foo.txt" 2 (by decide)).1,
   (C5_collision_resolution.2 ["foo.txt"] "foo.txt" 2 (by decide)).2.1,
   (C5_collision_resolution.2 ["foo.txt"] "foo.txt" 2 (by decide)).2.2⟩

/-- C7: if archive construction fails, `create_backup` unlinks the partial
archive and propagates the error, and the metadata sidecar — written only
after the archive is complete — is untouched, so a failed backup under a
fresh name leaves the backup directory exactly as it was; an omitted
`backup_name` defaults to `backup_` + the `%Y%m%d_%H%M%S` rendering of the
current time. -/
theorem C7_create_backup_atomic :
    ∀ (st : BackupState) (backup_name? : Option String) (now : DateTime),
      ((create_backup st true backup_name? now true).2 = .error .backupFailed ∧
       (create_backup st true backup_name? now true).1.metadata = st.metadata ∧
       backup_name?.getD (default_backup_name now)
         ∉ (create_backup st true backup_name? now true).1.archives ∧
       (backup_name?.getD (default_backup_name now) ∉ st.archives →
         (create_backup st true backup_name? now true).1 = st)) ∧
      ((create_backup st true none now false).2
         = .ok (default_backup_name now ++ ".zip") ∧
       default_backup_name now
         ∈ (create_backup st true none now false).1.archives ∧
       (default_backup_name now, iso_timestamp now)
         ∈ (create_backup st true none now false).1.metadata) := by
  intro st backup_name? now
  refine ⟨⟨rfl, rfl, ?_, ?_⟩, rfl, ?_, ?_⟩
  · exact not_mem_filter_bne st.archives _
  · intro hfresh
    have heq : st.archives.filter
        (fun a => a != backup_name?.getD (default_backup_name now))
        = st.archives := filter_bne_eq_self hfresh
    show BackupState.mk (st.archives.filter
      (fun a => a != backup_name?.getD (default_backup_name now))) st.metadata = st
    rw [heq]
  · exact List.mem_cons_self _ _
  · exact List.mem_cons_self _ _

/-- C7 (witness): the failure branch leaves an empty backup store unchanged,
and the success branch produces the timestamp-derived default name. -/
theorem C7_create_backup_atomic_witness :
    (create_backup ⟨["old"], [("old", "2024-01-01T00:00:00")]⟩ true
        (some "b1") ⟨2024, 3, 7, 9, 5, 30⟩ true).1
      = ⟨["old"], [("old", "2024-01-01T00:00:00")]⟩ ∧
    (create_backup ⟨[], []⟩ true none ⟨2024, 3, 7, 9, 5, 30⟩ false).2
      = .ok (default_backup_name ⟨2024, 3, 7, 9, 5, 30⟩ ++ ".zip") ∧
    default_backup_name ⟨2024, 3, 7, 9, 5, 30⟩ = "backup_20240307_090530" :=
  ⟨(C7_create_backup_atomic ⟨["old"], [("old", "2024-01-01T00:00:00")]⟩
      (some "b1") ⟨2024, 3, 7, 9, 5, 30⟩).1.2.2.2 (by decide),
   (C7_create_backup_atomic ⟨[], []⟩ (some "b1") ⟨2024, 3, 7, 9, 5, 30⟩).2.1,
   by decide⟩

/-- C8: `cleanup_old_backups N` is a no-op returning 0 when at most N backups
exist; with M > N backups (distinct archive names) it returns M - N, exactly
N archives remain, they are precisely the first N entries of the
`created_at`-descending `list_backups` order, and every kept backup's
timestamp is at least every deleted one's. -/
theorem C8_retention :
    ∀ (st : BackupState) (N : Nat), st.archives.Nodup →
      ((list_backups st).length ≤ N → cleanup_old_backups st N = (st, 0)) ∧
      (N < (list_backups st).length →
        (cleanup_old_backups st N).2 = (list_backups st).length - N ∧
        (cleanup_old_backups st N).1.archives.length = N ∧
        (∀ b ∈ (list_backups st).take N,
          b.backup_name ∈ (cleanup_old_backups st N).1.archives) ∧
        (∀ b ∈ (list_backups st).drop N,
          b.backup_name ∉ (cleanup_old_backups st N).1.archives) ∧
        (∀ b ∈ (list_backups st).take N, ∀ b2 ∈ (list_backups st).drop N,
          b2.created_at ≤ b.created_at)) := by
  intro st N hnd
  constructor
  · intro hle
    unfold cleanup_old_backups
    rw [if_pos hle]
  · intro hlt
    have hneg : ¬ (list_backups st).length ≤ N := by omega
    obtain ⟨hc, ha⟩ := delete_backups_loop_spec
      (((list_backups st).drop N).map (fun b => b.backup_name)) st
    have hres : cleanup_old_backups st N = delete_backups_loop st
        (((list_backups st).drop N).map (fun b => b.backup_name)) := by
      unfold cleanup_old_backups
      rw [if_neg hneg]
    have hnames : ((list_backups st).map (fun b => b.backup_name)).Perm
        st.archives := list_backups_names_perm st
    have hsplit : ((list_backups st).take N).map (fun b => b.backup_name)
        ++ ((list_backups st).drop N).map (fun b => b.backup_name)
        = (list_backups st).map (fun b => b.backup_name) := by
      rw [← List.map_append, List.take_append_drop]
    have hndnames : (((list_backups st).take N).map (fun b => b.backup_name)
        ++ ((list_backups st).drop N).map (fun b => b.backup_name)).Nodup := by
      rw [hsplit]
      exact hnames.nodup_iff.mpr hnd
    obtain ⟨-, -, hdisj⟩ := List.nodup_append.mp hndnames
    have hfilter : st.archives.filter
        (fun a => !(((list_backups st).drop N).map (fun b => b.backup_name)).contains a)
        |>.Perm (((list_backups st).take N).map (fun b => b.backup_name)) := by
      have hp1 := (hnames.symm.filter
        (fun a => !(((list_backups st).drop N).map (fun b => b.backup_name)).contains a)).symm
      rw [← hsplit, List.filter_append] at hp1
      have h1 : (((list_backups st).take N).map (fun b => b.backup_name)).filter
          (fun a => !(((list_backups st).drop N).map (fun b => b.backup_name)).contains a)
          = ((list_backups st).take N).map (fun b => b.backup_name) := by
        rw [List.filter_eq_self]
        intro a hamem
        simp only [Bool.not_eq_true']
        rw [← Bool.not_eq_true]
        intro hcont
        exact hdisj hamem ((contains_iff _ _).mp hcont)
      have h2 : (((list_backups st).drop N).map (fun b => b.backup_name)).filter
          (fun a => !(((list_backups st).drop N).map (fun b => b.backup_name)).contains a)
          = [] := by
        rw [List.filter_eq_nil_iff]
        intro a hamem
        simp only [Bool.not_eq_true', Bool.not_eq_false]
        exact (contains_iff _ _).mpr hamem
      rw [h1, h2, List.append_nil] at hp1
      exact hp1.symm
    refine ⟨?_, ?_, ?_, ?_, ?_⟩
    · rw [hres, hc, List.length_map, List.length_drop]
    · rw [hres, ha]
      rw [hfilter.length_eq, List.length_map, List.length_take]
      omega
    · intro b hb
      rw [hres, ha, hfilter.mem_iff]
      exact List.mem_map_of_mem _ hb
    · intro b hb hmem
      rw [hres, ha, hfilter.mem_iff] at hmem
      exact hdisj hmem (List.mem_map_of_mem _ hb)
    · intro b hb b2 hb2
      have hsorted := list_backups_sorted st
      rw [← List.take_append_drop N (list_backups st)] at hsorted
      exact (List.pairwise_append.mp hsorted).2.2 b hb b2 hb2

/-- C8 (witness): retention at a concrete store of three backups with
`keep_count = 2`: one deletion, two archives kept. -/
theorem C8_retention_witness :
    (cleanup_old_backups
        ⟨["b1", "b2", "b3"],
         [("b1", "2024-01-01T00:00:00"), ("b2", "2024-03-01T00:00:00"),
          ("b3", "2024-02-01T00:00:00")]⟩ 2).2
      = (list_backups
        ⟨["b1", "b2", "b3"],
         [("b1", "2024-01-01T00:00:00"), ("b2", "2024-03-01T00:00:00"),
          ("b3", "2024-02-01T00:00:00")]⟩).length - 2 ∧
    (cleanup_old_backups
        ⟨["b1", "b2", "b3"],
         [("b1", "2024-01-01T00:00:00"), ("b2", "2024-03-01T00:00:00"),
          ("b3", "2024-02-01T00:00:00")]⟩ 2).1.archives.length = 2 := by
  have hlen : (list_backups
      ⟨["b1", "b2", "b3"],
       [("b1", "2024-01-01T00:00:00"), ("b2", "2024-03-01T00:00:00"),
        ("b3", "2024-02-01T00:00:00")]⟩).length = 3 := by
    have hl := (list_backups_names_perm
      ⟨["b1", "b2", "b3"],
       [("b1", "2024-01-01T00:00:00"), ("b2", "2024-03-01T00:00:00"),
        ("b3", "2024-02-01T00:00:00")]⟩).length_eq
    simpa using hl
  have h := (C8_retention
    ⟨["b1", "b2", "b3"],
     [("b1", "2024-01-01T00:00:00"), ("b2", "2024-03-01T00:00:00"),
      ("b3", "2024-02-01T00:00:00")]⟩ 2 (by decide)).2 (by omega)
  exact ⟨h.1, h.2.1⟩

end FileOrg
